import Mathlib

/-!
Verification of the transform stage of the yahoo stock price ETL pipeline.

The pandas code is shallowly embedded over lists: a `Bar` is one row of a
ticker's raw CSV file, a `PanelRow` is one row of the concatenated panel
(`StockDataTransformer._read_and_concatenate`), and the column operations
(`ffill`, `bfill`, rolling mean, exponentially weighted mean, percent
change) follow the pandas semantics used by `transformer.py`, with missing
values (`NaN`) modelled as `none` and prices as rationals.
-/

namespace StockETL

/-- One raw daily bar as parsed from a ticker's CSV file
(`Date, Open, High, Low, Close, Adj Close, Volume`).  `pd.to_datetime`
turns `Date` into a temporal value; only its ordering matters, so dates are
modelled as naturals.  A missing cell (`NaN`) is `none`. -/
structure Bar where
  date : ℕ
  openV : Option ℚ
  high : Option ℚ
  low : Option ℚ
  close : Option ℚ
  adjClose : Option ℚ
  volume : Option ℚ
deriving DecidableEq

instance : Inhabited Bar := ⟨⟨0, none, none, none, none, none, none⟩⟩

/-- One row of the concatenated panel built by
`StockDataTransformer._read_and_concatenate`: a raw bar tagged with its
ticker.  The MultiIndex `(Date, Ticker)` is kept as the two key fields. -/
structure PanelRow where
  date : ℕ
  ticker : String
  openV : Option ℚ
  high : Option ℚ
  low : Option ℚ
  close : Option ℚ
  adjClose : Option ℚ
  volume : Option ℚ
deriving DecidableEq

instance : Inhabited PanelRow := ⟨⟨0, "", none, none, none, none, none, none⟩⟩

/-- `_read_and_concatenate`: read each ticker's raw file, tag every row with
its `Ticker`, and concatenate all tickers into one panel.  `raw` maps a
ticker to the rows of its CSV file, in file order. -/
def loadPanel (tickers : List String) (raw : String → List Bar) : List PanelRow :=
  tickers.flatMap fun t =>
    (raw t).map fun b =>
      { date := b.date, ticker := t, openV := b.openV, high := b.high,
        low := b.low, close := b.close, adjClose := b.adjClose, volume := b.volume }

/-- Forward fill carrying an accumulator: `pandas.Series.ffill` applied to a
column, where `acc` is the last value seen before the current suffix. -/
def ffillFrom (acc : Option ℚ) : List (Option ℚ) → List (Option ℚ)
  | [] => []
  | none :: xs => acc :: ffillFrom acc xs
  | some v :: xs => some v :: ffillFrom (some v) xs

/-- `pandas.Series.ffill`: propagate the last non-missing value forward; a
leading run of missing values stays missing. -/
def ffill (l : List (Option ℚ)) : List (Option ℚ) := ffillFrom none l

/-- `pandas.Series.bfill`: propagate the next non-missing value backward; a
trailing run of missing values stays missing. -/
def bfill (l : List (Option ℚ)) : List (Option ℚ) := (ffill l.reverse).reverse

/-- Extract one column of the panel, in row order. -/
def colOf (f : PanelRow → Option ℚ) (p : List PanelRow) : List (Option ℚ) := p.map f

/-- `StockDataTransformer._clean`: forward-fill the five price columns
(`Open, High, Low, Close, Adj Close`) and back-fill `Volume`, each column
over the whole table in row order; `Date` and `Ticker` are untouched. -/
def clean (p : List PanelRow) : List PanelRow :=
  let os := ffill (colOf PanelRow.openV p)
  let hs := ffill (colOf PanelRow.high p)
  let ls := ffill (colOf PanelRow.low p)
  let cs := ffill (colOf PanelRow.close p)
  let aj := ffill (colOf PanelRow.adjClose p)
  let vs := bfill (colOf PanelRow.volume p)
  (List.range p.length).map fun i =>
    { date := (p.getD i default).date, ticker := (p.getD i default).ticker,
      openV := os.getD i none, high := hs.getD i none, low := ls.getD i none,
      close := cs.getD i none, adjClose := aj.getD i none, volume := vs.getD i none }

/-- The `Close` column of a list of panel rows, in row order. -/
def closesOf (g : List PanelRow) : List (Option ℚ) := g.map PanelRow.close

/-- The ticker group of `t`: pandas `groupby` collects the rows whose key is
`t`, preserving their original row order. -/
def groupOf (p : List PanelRow) (t : String) : List PanelRow :=
  p.filter fun r => r.ticker == t

/-- The position of row `i` inside its own ticker group: the number of
earlier rows carrying the same ticker. -/
def posInGroup (p : List PanelRow) (i : ℕ) : ℕ :=
  ((p.take i).filter fun r => r.ticker == (p.getD i default).ticker).length

/-- A grouped column computation followed by index alignment: pandas
`df.groupby(level="Ticker")["Close"]` applies `f` to each ticker's `Close`
series in row order and assigns the result back to each row by its
`(Date, Ticker)` label, i.e. row `i` receives the value `f` produced at
row `i`'s position inside its group. -/
def derivedCol (f : List (Option ℚ) → List (Option ℚ)) (p : List PanelRow) :
    List (Option ℚ) :=
  (List.range p.length).map fun i =>
    (f (closesOf (groupOf p (p.getD i default).ticker))).getD (posInGroup p i) none

/-- The trailing window of size `w` ending at position `t` (shorter near the
start of the series). -/
def windowAt (w t : ℕ) (l : List (Option ℚ)) : List (Option ℚ) :=
  (l.take (t + 1)).drop (t + 1 - w)

/-- `Series.rolling(window=w, min_periods=1).mean()`: at each position the
mean of the non-missing values inside the trailing window; missing exactly
when the window holds no non-missing value. -/
def rollingMean (w : ℕ) (l : List (Option ℚ)) : List (Option ℚ) :=
  (List.range l.length).map fun t =>
    let vals := (windowAt w t l).filterMap id
    if vals.length = 0 then none else some (vals.sum / (vals.length : ℚ))

/-- `Series.pct_change()` with the default pad fill: the series is
forward-filled, then each entry is compared with its predecessor; the first
entry, and any entry with no filled predecessor, is missing. -/
def pctChange (l : List (Option ℚ)) : List (Option ℚ) :=
  (List.range l.length).map fun t =>
    match t with
    | 0 => none
    | t' + 1 =>
      match (ffill l).getD t' none, (ffill l).getD (t' + 1) none with
      | some prev, some cur => some ((cur - prev) / prev)
      | _, _ => none

/-- State of the pandas exponentially weighted mean recurrence
(`ewm(span=s, adjust=False)`, default `ignore_na=False`): the current mean
(missing before the first observation) and the accumulated weight of the
old mean. -/
structure EwmState where
  wavg : Option ℚ
  oldWt : ℚ
deriving DecidableEq

/-- One step of the pandas non-adjusted exponentially weighted mean: a
missing observation leaves the mean unchanged but decays the old weight, a
present observation updates the mean and resets the old weight to 1. -/
def ewmStep (a : ℚ) (s : EwmState) (x : Option ℚ) : EwmState :=
  match s.wavg, x with
  | some w, some c =>
    let ow := s.oldWt * (1 - a)
    { wavg := some ((ow * w + a * c) / (ow + a)), oldWt := 1 }
  | some w, none => { wavg := some w, oldWt := s.oldWt * (1 - a) }
  | none, some c => { wavg := some c, oldWt := s.oldWt }
  | none, none => { wavg := none, oldWt := s.oldWt }

/-- Run the exponentially weighted mean recurrence, emitting the mean after
each observation. -/
def ewmGo (a : ℚ) (s : EwmState) : List (Option ℚ) → List (Option ℚ)
  | [] => []
  | x :: xs =>
    let s' := ewmStep a s x
    s'.wavg :: ewmGo a s' xs

/-- `Series.ewm(span=s, adjust=False).mean()` with smoothing factor `a`. -/
def ewmMean (a : ℚ) (l : List (Option ℚ)) : List (Option ℚ) :=
  ewmGo a { wavg := none, oldWt := 1 } l

/-- The smoothing factor pandas derives from a span: `a = 2 / (span + 1)`. -/
def emaAlpha (s : ℕ) : ℚ := 2 / ((s : ℚ) + 1)

/-- `(roll > ema)` on possibly-missing operands: pandas comparisons with
`NaN` are `False`. -/
def optGtB : Option ℚ → Option ℚ → Bool
  | some a, some b => decide (b < a)
  | _, _ => false

/-- `(roll < ema)` on possibly-missing operands: pandas comparisons with
`NaN` are `False`. -/
def optLtB : Option ℚ → Option ℚ → Bool
  | some a, some b => decide (a < b)
  | _, _ => false

/-- `_add_time_series_analysis` row value:
`(roll > ema).astype(int) - (roll < ema).astype(int)`. -/
def crossoverVal (r e : Option ℚ) : ℤ :=
  (if optGtB r e then 1 else 0) - (if optLtB r e then 1 else 0)

/-- One row of the consolidated output: the cleaned panel row plus the four
derived columns added by `transform`. -/
structure TransRow where
  base : PanelRow
  dailyReturn : Option ℚ
  rollAvg : Option ℚ
  ema : Option ℚ
  crossover : ℤ
deriving DecidableEq

instance : Inhabited TransRow := ⟨⟨default, none, none, none, 0⟩⟩

/-- `StockDataTransformer.transform` applied to an already-loaded panel:
clean, then attach `DailyReturn`, `RollAvg{w}Days`, `EMA{s}` and
`Crossover`, each derived column grouped by ticker and aligned back to its
rows. -/
def transformPanel (p : List PanelRow) (w s : ℕ) : List TransRow :=
  let q := clean p
  let dr := derivedCol pctChange q
  let ra := derivedCol (rollingMean w) q
  let em := derivedCol (ewmMean (emaAlpha s)) q
  (List.range q.length).map fun i =>
    { base := q.getD i default, dailyReturn := dr.getD i none,
      rollAvg := ra.getD i none, ema := em.getD i none,
      crossover := crossoverVal (ra.getD i none) (em.getD i none) }

/-- The whole transform run: load the partition's raw files into a panel,
then transform it.  The code has no empty-input check: a partition in which
every raw file is empty flows through and produces an empty output. -/
def transform (tickers : List String) (raw : String → List Bar) (w s : ℕ) :
    List TransRow :=
  transformPanel (loadPanel tickers raw) w s

/-- The `(Date, Ticker)` keys of a panel, in row order. -/
def keys (p : List PanelRow) : List (ℕ × String) := p.map fun r => (r.date, r.ticker)

/-- The `(Date, Ticker)` keys of a transformed panel, in row order. -/
def keysT (p : List TransRow) : List (ℕ × String) :=
  p.map fun r => (r.base.date, r.base.ticker)

/-- Column header template `RollAvg{window}Days` from `transformer.py`. -/
def rollAvgColName (w : ℕ) : String := "RollAvg" ++ toString w ++ "Days"

/-- Column header template `EMA{span}` from `transformer.py`. -/
def emaColName (s : ℕ) : String := "EMA" ++ toString s

/-- The header of the consolidated CSV written by `BaseETL._save_to_csv`:
`df.to_csv(out_file, index=False)` writes only `df.columns`, and after
`transform` those are the six data columns plus the four derived columns.
`Date` and `Ticker` live in the MultiIndex, which `index=False` omits. -/
def savedColumns (w s : ℕ) : List String :=
  ["Open", "High", "Low", "Close", "Adj Close", "Volume",
   "DailyReturn", rollAvgColName w, emaColName s, "Crossover"]

/-- Modelled from the spec: the last known value at or before position `i`
of a column — the value `clean` is said to carry forward. -/
def specLastKnown (l : List (Option ℚ)) (i : ℕ) : Option ℚ :=
  ((l.take (i + 1)).reverse).findSome? id

/-- Modelled from the spec: the next known value at or after position `i`
of a column — the value `clean` is said to carry backward for `Volume`. -/
def specNextKnown (l : List (Option ℚ)) (i : ℕ) : Option ℚ :=
  (l.drop i).findSome? id

/-- Modelled from the spec: sort a ticker group by ascending `Date`. -/
def sortByDate (g : List PanelRow) : List PanelRow :=
  List.insertionSort (fun a b => a.date ≤ b.date) g

/-- Modelled from the spec: a windowed computation "defined relative to
ascending Date order within a Ticker group" — sort the group by `Date`,
apply the column computation there, and give each original row the value
computed at its date. -/
def specColByDate (f : List (Option ℚ) → List (Option ℚ)) (g : List PanelRow) :
    List (Option ℚ) :=
  let pairs := ((sortByDate g).map PanelRow.date).zip (f (closesOf (sortByDate g)))
  g.map fun r => ((pairs.lookup r.date).getD none)

/-- Modelled from the spec: the plain EMA recurrence continued from a seed,
`EMA[t] = a * Close[t] + (1 - a) * EMA[t-1]`. -/
def emaFrom (a : ℚ) (prev : ℚ) : List ℚ → List ℚ
  | [] => []
  | c :: cs => (a * c + (1 - a) * prev) :: emaFrom a (a * c + (1 - a) * prev) cs

/-- Modelled from the spec: the recursive EMA seeded from the first
observation, `EMA[0] = Close[0]`. -/
def emaRec (a : ℚ) : List ℚ → List ℚ
  | [] => []
  | c :: cs => c :: emaFrom a c cs

theorem length_ffillFrom (acc : Option ℚ) (l : List (Option ℚ)) :
    (ffillFrom acc l).length = l.length := by
  induction l generalizing acc with
  | nil => rfl
  | cons x xs ih => cases x <;> simp [ffillFrom, ih]

theorem length_ffill (l : List (Option ℚ)) : (ffill l).length = l.length :=
  length_ffillFrom none l

theorem length_bfill (l : List (Option ℚ)) : (bfill l).length = l.length := by
  simp [bfill, length_ffill]

theorem ffillFrom_getElem (acc : Option ℚ) (l : List (Option ℚ)) (i : ℕ)
    (h : i < l.length) :
    (ffillFrom acc l).getD i none = (((l.take (i + 1)).reverse).findSome? id).or acc := by
  induction l generalizing acc i with
  | nil => simp at h
  | cons x xs ih =>
    cases x with
    | none =>
      cases i with
      | zero => simp [ffillFrom, List.findSome?]
      | succ j =>
        have hj : j < xs.length := by simpa using h
        simp only [ffillFrom, List.getD_cons_succ, ih acc j hj, List.take_succ_cons,
          List.reverse_cons, List.findSome?_append]
        simp [List.findSome?, Option.or_assoc]
    | some v =>
      cases i with
      | zero => simp [ffillFrom, List.findSome?]
      | succ j =>
        have hj : j < xs.length := by simpa using h
        simp only [ffillFrom, List.getD_cons_succ, ih (some v) j hj, List.take_succ_cons,
          List.reverse_cons, List.findSome?_append]
        simp [List.findSome?, Option.or_assoc]

theorem ffill_getD (l : List (Option ℚ)) (i : ℕ) (h : i < l.length) :
    (ffill l).getD i none = specLastKnown l i := by
  rw [ffill, ffillFrom_getElem none l i h, Option.or_none, specLastKnown]

theorem bfill_getD (l : List (Option ℚ)) (i : ℕ) (h : i < l.length) :
    (bfill l).getD i none = specNextKnown l i := by
  have hlen : i < ((ffill l.reverse)).length := by
    simpa [length_ffill] using h
  have hrev : i < (bfill l).length := by simpa [length_bfill] using h
  rw [List.getD_eq_getElem _ _ hrev]
  have hb : l.length - 1 - i < (ffill l.reverse).length := by
    simp [length_ffill]; omega
  have h1 : (bfill l)[i] = (ffill l.reverse)[l.length - 1 - i] := by
    simp [bfill, List.getElem_reverse, length_ffill]
  rw [h1, ← List.getD_eq_getElem _ none,
    ffill_getD l.reverse (l.length - 1 - i) (by simp; omega)]
  have h2 : l.length - 1 - i + 1 = l.length - i := by omega
  rw [specLastKnown, specNextKnown, h2, List.take_reverse]
  have h3 : l.length - (l.length - i) = i := by omega
  rw [h3, List.reverse_reverse]

theorem length_clean (p : List PanelRow) : (clean p).length = p.length := by
  simp [clean]

theorem clean_getD (p : List PanelRow) (i : ℕ) (h : i < p.length) :
    (clean p).getD i default =
      { date := (p.getD i default).date, ticker := (p.getD i default).ticker,
        openV := specLastKnown (colOf PanelRow.openV p) i,
        high := specLastKnown (colOf PanelRow.high p) i,
        low := specLastKnown (colOf PanelRow.low p) i,
        close := specLastKnown (colOf PanelRow.close p) i,
        adjClose := specLastKnown (colOf PanelRow.adjClose p) i,
        volume := specNextKnown (colOf PanelRow.volume p) i } := by
  have hc : ∀ f : PanelRow → Option ℚ, (colOf f p).length = p.length := by
    intro f; simp [colOf]
  have hlen : i < (clean p).length := by simpa [length_clean] using h
  rw [List.getD_eq_getElem _ _ hlen]
  simp only [clean, List.getElem_map, List.getElem_range]
  rw [ffill_getD _ i (by rw [hc]; exact h), ffill_getD _ i (by rw [hc]; exact h),
    ffill_getD _ i (by rw [hc]; exact h), ffill_getD _ i (by rw [hc]; exact h),
    ffill_getD _ i (by rw [hc]; exact h), bfill_getD _ i (by rw [hc]; exact h)]

theorem ffillFrom_idem (acc : Option ℚ) (l : List (Option ℚ)) :
    ffillFrom acc (ffillFrom acc l) = ffillFrom acc l := by
  induction l generalizing acc with
  | nil => rfl
  | cons x xs ih =>
    cases x with
    | none =>
      cases acc with
      | none => simp [ffillFrom, ih]
      | some a => simp [ffillFrom, ih]
    | some v => simp [ffillFrom, ih]

theorem ffill_idem (l : List (Option ℚ)) : ffill (ffill l) = ffill l :=
  ffillFrom_idem none l

theorem bfill_idem (l : List (Option ℚ)) : bfill (bfill l) = bfill l := by
  simp [bfill, List.reverse_reverse, ffill_idem]

theorem specLastKnown_ffill (l : List (Option ℚ)) (i : ℕ) (h : i < l.length) :
    specLastKnown (ffill l) i = specLastKnown l i := by
  rw [← ffill_getD (ffill l) i (by simpa [length_ffill] using h), ffill_idem,
    ffill_getD l i h]

theorem specNextKnown_bfill (l : List (Option ℚ)) (i : ℕ) (h : i < l.length) :
    specNextKnown (bfill l) i = specNextKnown l i := by
  rw [← bfill_getD (bfill l) i (by simpa [length_bfill] using h), bfill_idem,
    bfill_getD l i h]

theorem colOf_length (f : PanelRow → Option ℚ) (p : List PanelRow) :
    (colOf f p).length = p.length := by
  simp [colOf]

theorem colOf_clean_openV (p : List PanelRow) :
    colOf PanelRow.openV (clean p) = ffill (colOf PanelRow.openV p) := by
  apply List.ext_getElem (by simp [colOf_length, length_clean, length_ffill, colOf])
  intro n h1 h2
  have hn : n < p.length := by simpa [colOf_length, length_clean] using h1
  rw [← List.getD_eq_getElem _ none, ← List.getD_eq_getElem _ none]
  have : (colOf PanelRow.openV (clean p)).getD n none =
      ((clean p).getD n default).openV := by
    rw [List.getD_eq_getElem _ _ h1, List.getD_eq_getElem _ default
      (by simpa [length_clean] using hn)]
    simp [colOf]
  rw [this, clean_getD p n hn, ffill_getD _ n (by simpa [colOf_length] using hn)]

theorem colOf_clean_high (p : List PanelRow) :
    colOf PanelRow.high (clean p) = ffill (colOf PanelRow.high p) := by
  apply List.ext_getElem (by simp [colOf_length, length_clean, length_ffill, colOf])
  intro n h1 h2
  have hn : n < p.length := by simpa [colOf_length, length_clean] using h1
  rw [← List.getD_eq_getElem _ none, ← List.getD_eq_getElem _ none]
  have : (colOf PanelRow.high (clean p)).getD n none =
      ((clean p).getD n default).high := by
    rw [List.getD_eq_getElem _ _ h1, List.getD_eq_getElem _ default
      (by simpa [length_clean] using hn)]
    simp [colOf]
  rw [this, clean_getD p n hn, ffill_getD _ n (by simpa [colOf_length] using hn)]

theorem colOf_clean_low (p : List PanelRow) :
    colOf PanelRow.low (clean p) = ffill (colOf PanelRow.low p) := by
  apply List.ext_getElem (by simp [colOf_length, length_clean, length_ffill, colOf])
  intro n h1 h2
  have hn : n < p.length := by simpa [colOf_length, length_clean] using h1
  rw [← List.getD_eq_getElem _ none, ← List.getD_eq_getElem _ none]
  have : (colOf PanelRow.low (clean p)).getD n none =
      ((clean p).getD n default).low := by
    rw [List.getD_eq_getElem _ _ h1, List.getD_eq_getElem _ default
      (by simpa [length_clean] using hn)]
    simp [colOf]
  rw [this, clean_getD p n hn, ffill_getD _ n (by simpa [colOf_length] using hn)]

theorem colOf_clean_close (p : List PanelRow) :
    colOf PanelRow.close (clean p) = ffill (colOf PanelRow.close p) := by
  apply List.ext_getElem (by simp [colOf_length, length_clean, length_ffill, colOf])
  intro n h1 h2
  have hn : n < p.length := by simpa [colOf_length, length_clean] using h1
  rw [← List.getD_eq_getElem _ none, ← List.getD_eq_getElem _ none]
  have : (colOf PanelRow.close (clean p)).getD n none =
      ((clean p).getD n default).close := by
    rw [List.getD_eq_getElem _ _ h1, List.getD_eq_getElem _ default
      (by simpa [length_clean] using hn)]
    simp [colOf]
  rw [this, clean_getD p n hn, ffill_getD _ n (by simpa [colOf_length] using hn)]

theorem colOf_clean_adjClose (p : List PanelRow) :
    colOf PanelRow.adjClose (clean p) = ffill (colOf PanelRow.adjClose p) := by
  apply List.ext_getElem (by simp [colOf_length, length_clean, length_ffill, colOf])
  intro n h1 h2
  have hn : n < p.length := by simpa [colOf_length, length_clean] using h1
  rw [← List.getD_eq_getElem _ none, ← List.getD_eq_getElem _ none]
  have : (colOf PanelRow.adjClose (clean p)).getD n none =
      ((clean p).getD n default).adjClose := by
    rw [List.getD_eq_getElem _ _ h1, List.getD_eq_getElem _ default
      (by simpa [length_clean] using hn)]
    simp [colOf]
  rw [this, clean_getD p n hn, ffill_getD _ n (by simpa [colOf_length] using hn)]

theorem colOf_clean_volume (p : List PanelRow) :
    colOf PanelRow.volume (clean p) = bfill (colOf PanelRow.volume p) := by
  apply List.ext_getElem (by simp [colOf_length, length_clean, length_bfill, colOf])
  intro n h1 h2
  have hn : n < p.length := by simpa [colOf_length, length_clean] using h1
  rw [← List.getD_eq_getElem _ none, ← List.getD_eq_getElem _ none]
  have : (colOf PanelRow.volume (clean p)).getD n none =
      ((clean p).getD n default).volume := by
    rw [List.getD_eq_getElem _ _ h1, List.getD_eq_getElem _ default
      (by simpa [length_clean] using hn)]
    simp [colOf]
  rw [this, clean_getD p n hn, bfill_getD _ n (by simpa [colOf_length] using hn)]

/-- Claim C5: `clean` forward-fills each of the five price columns
(`Open, High, Low, Close, Adj Close`) in whole-table row order, carrying
the last known value forward, and back-fills `Volume`, carrying the next
known value backward; a value with no earlier (resp. later) known value
stays missing, and `clean` is total — it keeps every row and its keys. -/
theorem claimC5_clean_fill_semantics (p : List PanelRow) (i : ℕ)
    (h : i < p.length) :
    (clean p).length = p.length ∧
    (clean p).getD i default =
      { date := (p.getD i default).date, ticker := (p.getD i default).ticker,
        openV := specLastKnown (colOf PanelRow.openV p) i,
        high := specLastKnown (colOf PanelRow.high p) i,
        low := specLastKnown (colOf PanelRow.low p) i,
        close := specLastKnown (colOf PanelRow.close p) i,
        adjClose := specLastKnown (colOf PanelRow.adjClose p) i,
        volume := specNextKnown (colOf PanelRow.volume p) i } :=
  ⟨length_clean p, clean_getD p i h⟩

/-- Witness for claim C5: a two-row panel with a missing second `Close`
(filled from the first row), a missing first `Open` (left missing), and a
missing first `Volume` (filled from the second row). -/
theorem claimC5_witness :
    (0 : ℕ) < ([⟨0, "A", none, some 2, some 0, some 1, some 1, none⟩,
        ⟨1, "A", some 3, some 2, some 0, none, some 1, some 5⟩] :
        List PanelRow).length ∧
      (clean [⟨0, "A", none, some 2, some 0, some 1, some 1, none⟩,
        ⟨1, "A", some 3, some 2, some 0, none, some 1, some 5⟩]).getD 0 default =
        ⟨0, "A", none, some 2, some 0, some 1, some 1, some 5⟩ := by
  refine ⟨by decide, ?_⟩
  rw [(claimC5_clean_fill_semantics
    [⟨0, "A", none, some 2, some 0, some 1, some 1, none⟩,
      ⟨1, "A", some 3, some 2, some 0, none, some 1, some 5⟩] 0 (by decide)).2]
  decide

/-- Claim C8: `clean` is idempotent — applying it twice yields exactly the
same table as applying it once. -/
theorem claimC8_clean_idempotent (p : List PanelRow) :
    clean (clean p) = clean p := by
  apply List.ext_getElem (by simp [length_clean])
  intro n h1 h2
  have hn : n < p.length := by simpa [length_clean] using h2
  have hcn : n < (clean p).length := by simpa [length_clean] using hn
  rw [← List.getD_eq_getElem _ default, ← List.getD_eq_getElem _ default,
    clean_getD (clean p) n hcn, clean_getD p n hn,
    colOf_clean_openV, colOf_clean_high, colOf_clean_low, colOf_clean_close,
    colOf_clean_adjClose, colOf_clean_volume,
    specLastKnown_ffill _ n (by simpa [colOf_length] using hn),
    specLastKnown_ffill _ n (by simpa [colOf_length] using hn),
    specLastKnown_ffill _ n (by simpa [colOf_length] using hn),
    specLastKnown_ffill _ n (by simpa [colOf_length] using hn),
    specLastKnown_ffill _ n (by simpa [colOf_length] using hn),
    specNextKnown_bfill _ n (by simpa [colOf_length] using hn)]

theorem length_transform (tickers : List String) (raw : String → List Bar)
    (w s : ℕ) :
    (transform tickers raw w s).length = (loadPanel tickers raw).length := by
  simp [transform, transformPanel, length_clean]

theorem transform_getD (tickers : List String) (raw : String → List Bar)
    (w s i : ℕ) (h : i < (transform tickers raw w s).length) :
    (transform tickers raw w s).getD i default =
      { base := (clean (loadPanel tickers raw)).getD i default,
        dailyReturn :=
          (derivedCol pctChange (clean (loadPanel tickers raw))).getD i none,
        rollAvg :=
          (derivedCol (rollingMean w) (clean (loadPanel tickers raw))).getD i none,
        ema :=
          (derivedCol (ewmMean (emaAlpha s)) (clean (loadPanel tickers raw))).getD i none,
        crossover := crossoverVal
          ((derivedCol (rollingMean w) (clean (loadPanel tickers raw))).getD i none)
          ((derivedCol (ewmMean (emaAlpha s)) (clean (loadPanel tickers raw))).getD i none) } := by
  rw [List.getD_eq_getElem _ _ h]
  simp [transform, transformPanel, List.getElem_map, List.getElem_range]

theorem crossoverVal_some (a b : ℚ) :
    crossoverVal (some a) (some b) =
      if b < a then 1 else if a < b then -1 else 0 := by
  simp only [crossoverVal, optGtB, optLtB]
  rcases lt_trichotomy a b with h | h | h
  · simp [h, not_lt.mpr (le_of_lt h)]
  · simp [h]
  · simp [h, not_lt.mpr (le_of_lt h)]

theorem crossoverVal_none_left (e : Option ℚ) : crossoverVal none e = 0 := by
  simp [crossoverVal, optGtB, optLtB]

theorem crossoverVal_none_right (r : Option ℚ) : crossoverVal r none = 0 := by
  cases r <;> simp [crossoverVal, optGtB, optLtB]

/-- Claim C1: on every row of the transformed panel whose rolling-average
and EMA values are both present, `Crossover` is the exact sign of
`RollAvg - EMA`: `+1` when the rolling average exceeds the EMA, `-1` when
it is below, `0` exactly on equality, and it always lies in `{-1, 0, 1}`. -/
theorem claimC1_crossover_sign (tickers : List String) (raw : String → List Bar)
    (w s i : ℕ) (a b : ℚ) (h : i < (transform tickers raw w s).length)
    (hr : ((transform tickers raw w s).getD i default).rollAvg = some a)
    (he : ((transform tickers raw w s).getD i default).ema = some b) :
    ((transform tickers raw w s).getD i default).crossover =
      (if b < a then 1 else if a < b then -1 else 0) ∧
    (((transform tickers raw w s).getD i default).crossover = 1 ∨
      ((transform tickers raw w s).getD i default).crossover = 0 ∨
      ((transform tickers raw w s).getD i default).crossover = -1) := by
  rw [transform_getD tickers raw w s i h] at hr he ⊢
  simp only at hr he ⊢
  rw [hr, he, crossoverVal_some]
  constructor
  · rfl
  · rcases lt_trichotomy a b with h' | h' | h'
    · simp [h', not_lt.mpr (le_of_lt h')]
    · simp [h']
    · simp [h', not_lt.mpr (le_of_lt h')]

/-- Claim C10: `add_crossover` is total — even on rows where the rolling
average or the EMA is missing, both comparisons are false and the
`Crossover` value is `0`, never missing and never an error. -/
theorem claimC10_crossover_total (tickers : List String) (raw : String → List Bar)
    (w s i : ℕ) (h : i < (transform tickers raw w s).length)
    (hne : ((transform tickers raw w s).getD i default).rollAvg = none ∨
      ((transform tickers raw w s).getD i default).ema = none) :
    ((transform tickers raw w s).getD i default).crossover = 0 := by
  rw [transform_getD tickers raw w s i h] at hne ⊢
  simp only at hne ⊢
  rcases hne with hne | hne
  · rw [hne, crossoverVal_none_left]
  · rw [hne, crossoverVal_none_right]

/-- Witness for claim C1: a one-ticker, one-row partition with `Close = 1`,
window 1 and span 1; both derived values are `1`, so the crossover is `0`. -/
theorem claimC1_witness :
    (0 : ℕ) < (transform ["A"]
        (fun _ => [⟨0, some 1, some 1, some 1, some 1, some 1, some 1⟩]) 1 1).length ∧
    ((transform ["A"]
        (fun _ => [⟨0, some 1, some 1, some 1, some 1, some 1, some 1⟩]) 1 1).getD 0
        default).rollAvg = some 1 ∧
    ((transform ["A"]
        (fun _ => [⟨0, some 1, some 1, some 1, some 1, some 1, some 1⟩]) 1 1).getD 0
        default).ema = some 1 ∧
    ((transform ["A"]
        (fun _ => [⟨0, some 1, some 1, some 1, some 1, some 1, some 1⟩]) 1 1).getD 0
        default).crossover = 0 := by
  have h : (0 : ℕ) < (transform ["A"]
      (fun _ => [⟨0, some 1, some 1, some 1, some 1, some 1, some 1⟩]) 1 1).length := by
    rw [length_transform]; simp [loadPanel]
  have hr : ((transform ["A"]
      (fun _ => [⟨0, some 1, some 1, some 1, some 1, some 1, some 1⟩]) 1 1).getD 0
      default).rollAvg = some 1 := by
    simp [transform, transformPanel, loadPanel, clean, colOf, derivedCol, groupOf,
      posInGroup, closesOf, rollingMean, windowAt, ffill, ffillFrom, bfill, ewmMean,
      ewmGo, ewmStep, pctChange, emaAlpha, List.getD, List.range_succ, List.range_zero]
  have he : ((transform ["A"]
      (fun _ => [⟨0, some 1, some 1, some 1, some 1, some 1, some 1⟩]) 1 1).getD 0
      default).ema = some 1 := by
    simp [transform, transformPanel, loadPanel, clean, colOf, derivedCol, groupOf,
      posInGroup, closesOf, rollingMean, windowAt, ffill, ffillFrom, bfill, ewmMean,
      ewmGo, ewmStep, pctChange, emaAlpha, List.getD, List.range_succ, List.range_zero]
  refine ⟨h, hr, he, ?_⟩
  have hc := (claimC1_crossover_sign ["A"]
    (fun _ => [⟨0, some 1, some 1, some 1, some 1, some 1, some 1⟩]) 1 1 0 1 1 h hr he).1
  rw [hc]
  norm_num

/-- Witness for claim C10: a one-ticker, one-row partition whose `Close` is
missing (and stays missing after `clean`), so the rolling average is
missing and the crossover is `0`. -/
theorem claimC10_witness :
    (0 : ℕ) < (transform ["A"]
        (fun _ => [⟨0, some 1, some 1, some 1, none, some 1, some 1⟩]) 1 1).length ∧
    ((transform ["A"]
        (fun _ => [⟨0, some 1, some 1, some 1, none, some 1, some 1⟩]) 1 1).getD 0
        default).rollAvg = none ∧
    ((transform ["A"]
        (fun _ => [⟨0, some 1, some 1, some 1, none, some 1, some 1⟩]) 1 1).getD 0
        default).crossover = 0 := by
  have h : (0 : ℕ) < (transform ["A"]
      (fun _ => [⟨0, some 1, some 1, some 1, none, some 1, some 1⟩]) 1 1).length := by
    rw [length_transform]; simp [loadPanel]
  have hr : ((transform ["A"]
      (fun _ => [⟨0, some 1, some 1, some 1, none, some 1, some 1⟩]) 1 1).getD 0
      default).rollAvg = none := by
    simp [transform, transformPanel, loadPanel, clean, colOf, derivedCol, groupOf,
      posInGroup, closesOf, rollingMean, windowAt, ffill, ffillFrom, bfill, ewmMean,
      ewmGo, ewmStep, pctChange, emaAlpha, List.getD, List.range_succ, List.range_zero]
  exact ⟨h, hr, claimC10_crossover_total ["A"]
    (fun _ => [⟨0, some 1, some 1, some 1, none, some 1, some 1⟩]) 1 1 0 h (Or.inl hr)⟩

theorem length_rollingMean (w : ℕ) (l : List (Option ℚ)) :
    (rollingMean w l).length = l.length := by
  simp [rollingMean]

theorem length_pctChange (l : List (Option ℚ)) : (pctChange l).length = l.length := by
  simp [pctChange]

theorem length_ewmGo (a : ℚ) (s : EwmState) (l : List (Option ℚ)) :
    (ewmGo a s l).length = l.length := by
  induction l generalizing s with
  | nil => rfl
  | cons x xs ih => simp [ewmGo, ih]

theorem length_ewmMean (a : ℚ) (l : List (Option ℚ)) :
    (ewmMean a l).length = l.length :=
  length_ewmGo a _ l

theorem rollingMean_getD (w : ℕ) (l : List (Option ℚ)) (t : ℕ) (h : t < l.length) :
    (rollingMean w l).getD t none =
      (if ((windowAt w t l).filterMap id).length = 0 then none
       else some (((windowAt w t l).filterMap id).sum /
         (((windowAt w t l).filterMap id).length : ℚ))) := by
  rw [List.getD_eq_getElem _ _ (by simpa [length_rollingMean] using h)]
  simp [rollingMean]

/-- Counterexample for claim C3: a ticker whose single row has a missing
`Close` (a leading gap that `clean` cannot fill) gets a missing
`RollAvg2Days` on its first row, so the column is not "never null". -/
theorem claimC3_counterexample :
    ((transform ["B"] (fun _ => [⟨0, some 1, some 1, some 1, none, some 1, some 1⟩]) 2 2).getD 0
      default).rollAvg = none := by
  simp [transform, transformPanel, loadPanel, clean, colOf, derivedCol, groupOf,
    posInGroup, closesOf, rollingMean, windowAt, ffill, ffillFrom, bfill, ewmMean,
    ewmGo, ewmStep, pctChange, emaAlpha, List.getD, List.range_succ, List.range_zero]

/-- Claim C3 as amended: for a ticker group all of whose `Close` values are
present and any window `N ≥ 1`, the rolling average is present on every
row — the first rows use a shrinking window — and equals the simple
average of the rows available in the trailing window. -/
theorem claimC3_amended_rolling_never_null (cs : List ℚ) (w t : ℕ)
    (hw : 1 ≤ w) (ht : t < cs.length) :
    (rollingMean w (cs.map some)).getD t none =
      some (((cs.take (t + 1)).drop (t + 1 - w)).sum /
        ((((cs.take (t + 1)).drop (t + 1 - w)).length : ℚ))) := by
  rw [rollingMean_getD w _ t (by simpa using ht)]
  have hwin : windowAt w t (cs.map some) =
      ((cs.take (t + 1)).drop (t + 1 - w)).map some := by
    simp [windowAt, List.map_take, List.map_drop]
  have hpure : (windowAt w t (cs.map some)).filterMap id =
      (cs.take (t + 1)).drop (t + 1 - w) := by
    rw [hwin, List.filterMap_map]
    exact List.filterMap_some _
  have hlen : ((cs.take (t + 1)).drop (t + 1 - w)).length ≠ 0 := by
    simp only [List.length_drop, List.length_take]
    omega
  rw [hpure, if_neg hlen]

/-- Witness for the amended claim C3: closes `[1, 2]`, window 2, second
row — the value is the full-window mean `3/2`. -/
theorem claimC3_amended_witness :
    (1 : ℕ) ≤ 2 ∧ (1 : ℕ) < ([1, 2] : List ℚ).length ∧
    (rollingMean 2 (([1, 2] : List ℚ).map some)).getD 1 none = some (3 / 2) := by
  refine ⟨by norm_num, by norm_num, ?_⟩
  rw [claimC3_amended_rolling_never_null [1, 2] 2 1 (by norm_num) (by norm_num)]
  norm_num

theorem ewmGo_map_some (a prev : ℚ) (cs : List ℚ) :
    ewmGo a { wavg := some prev, oldWt := 1 } (cs.map some) =
      (emaFrom a prev cs).map some := by
  induction cs generalizing prev with
  | nil => rfl
  | cons c cs ih =>
    simp only [List.map_cons, ewmGo, ewmStep]
    have hval : (1 * (1 - a) * prev + a * c) / (1 * (1 - a) + a) =
        a * c + (1 - a) * prev := by
      have hd : 1 * (1 - a) + a = 1 := by ring
      rw [hd, div_one]; ring
    rw [hval, emaFrom, List.map_cons]
    exact congrArg _ (ih _)

theorem ewmMean_map_some (a : ℚ) (cs : List ℚ) :
    ewmMean a (cs.map some) = (emaRec a cs).map some := by
  cases cs with
  | nil => rfl
  | cons c cs =>
    simp only [ewmMean, List.map_cons, ewmGo, ewmStep, emaRec]
    exact congrArg _ (ewmGo_map_some a c cs)

/-- Counterexample for claim C2: a ticker group whose two rows arrive in
descending date order (`Date 2` then `Date 1`, closes `10` then `20`).
`add_ema` with span 3 runs the recurrence in row order, giving
`[10, 15]`, whereas the EMA over ascending `Date` order would give the
`Date 1` row its own close `20` as seed — the two columns differ. -/
theorem claimC2_counterexample :
    derivedCol (ewmMean (emaAlpha 3))
        [⟨2, "A", some 10, some 10, some 10, some 10, some 10, some 10⟩,
         ⟨1, "A", some 20, some 20, some 20, some 20, some 20, some 20⟩] ≠
      specColByDate (ewmMean (emaAlpha 3))
        [⟨2, "A", some 10, some 10, some 10, some 10, some 10, some 10⟩,
         ⟨1, "A", some 20, some 20, some 20, some 20, some 20, some 20⟩] := by
  have h1 : derivedCol (ewmMean (emaAlpha 3))
      [⟨2, "A", some 10, some 10, some 10, some 10, some 10, some 10⟩,
       ⟨1, "A", some 20, some 20, some 20, some 20, some 20, some 20⟩] =
      [some 10, some 15] := by
    norm_num [derivedCol, groupOf, posInGroup, closesOf, ewmMean, ewmGo, ewmStep,
      emaAlpha, List.getD, List.range_succ, List.range_zero]
  have h2 : specColByDate (ewmMean (emaAlpha 3))
      [⟨2, "A", some 10, some 10, some 10, some 10, some 10, some 10⟩,
       ⟨1, "A", some 20, some 20, some 20, some 20, some 20, some 20⟩] =
      [some 15, some 20] := by
    norm_num [specColByDate, sortByDate, closesOf, ewmMean, ewmGo, ewmStep, emaAlpha,
      List.insertionSort, List.orderedInsert, List.lookup]
    rfl
  rw [h1, h2]
  simp

/-- Claim C2 as amended: for a ticker group all of whose `Close` values are
present, `add_ema` with span `S ≥ 1` computes the non-adjusted recursive
EMA over the group's row order (ascending `Date` order exactly when the
rows arrive date-sorted): the value list is the recursion seeded at the
first row, `EMA[0] = Close[0]` and `EMA[t] = a*Close[t] + (1-a)*EMA[t-1]`
with `a = 2/(S+1)`. -/
theorem claimC2_amended_ema_recursion (g : List PanelRow) (s : ℕ) (cs : List ℚ)
    (hs : 1 ≤ s) (hcs : closesOf g = cs.map some) :
    ewmMean (emaAlpha s) (closesOf g) = (emaRec (emaAlpha s) cs).map some := by
  rw [hcs, ewmMean_map_some]

/-- Witness for the amended claim C2: one row with `Close = 7`, span 1 —
the EMA column is the seed `[7]`. -/
theorem claimC2_amended_witness :
    (1 : ℕ) ≤ 1 ∧
    closesOf [⟨0, "A", some 7, some 7, some 7, some 7, some 7, some 7⟩] =
      ([7] : List ℚ).map some ∧
    ewmMean (emaAlpha 1)
        (closesOf [⟨0, "A", some 7, some 7, some 7, some 7, some 7, some 7⟩]) =
      (emaRec (emaAlpha 1) [7]).map some := by
  refine ⟨le_refl 1, by simp [closesOf], ?_⟩
  exact claimC2_amended_ema_recursion
    [⟨0, "A", some 7, some 7, some 7, some 7, some 7, some 7⟩] 1 [7]
    (le_refl 1) (by simp [closesOf])

theorem lookup_zip_getD (ds : List ℕ) (vs : List (Option ℚ)) (hn : ds.Nodup)
    (hl : vs.length = ds.length) :
    ds.map (fun d => (((ds.zip vs).lookup d)).getD none) = vs := by
  induction ds generalizing vs with
  | nil =>
    have : vs = [] := List.length_eq_zero.mp (by simpa using hl)
    simp [this]
  | cons d ds ih =>
    cases vs with
    | nil => simp at hl
    | cons v vs =>
      have hl' : vs.length = ds.length := by simpa using hl
      have hn' : ds.Nodup := hn.of_cons
      have hd : d ∉ ds := by
        rcases List.nodup_cons.mp hn with ⟨h, _⟩
        exact h
      simp only [List.zip_cons_cons, List.map_cons]
      congr 1
      · simp [List.lookup_cons]
      · have hcong : ∀ x ∈ ds,
            ((((d, v) :: ds.zip vs).lookup x)).getD none =
              (((ds.zip vs).lookup x)).getD none := by
          intro x hx
          have hne : (x == d) = false := by
            simp only [beq_eq_false_iff_ne, ne_eq]
            exact fun hEq => hd (hEq ▸ hx)
          simp [List.lookup_cons, hne]
        rw [List.map_congr_left hcong]
        exact ih vs hn' hl'

theorem specColByDate_of_sorted (f : List (Option ℚ) → List (Option ℚ))
    (g : List PanelRow) (hs : (g.map PanelRow.date).Sorted (· < ·))
    (hlen : (f (closesOf g)).length = g.length) :
    specColByDate f g = f (closesOf g) := by
  have hpw : List.Pairwise (fun a b : PanelRow => a.date < b.date) g :=
    (List.pairwise_map).mp hs
  have hsorted : List.Sorted (fun a b : PanelRow => a.date ≤ b.date) g :=
    hpw.imp (fun h => le_of_lt h)
  have hnd : (g.map PanelRow.date).Nodup := hs.imp (fun h => ne_of_lt h)
  have heq : sortByDate g = g := List.Sorted.insertionSort_eq hsorted
  simp only [specColByDate, heq]
  have hmm : g.map (fun r =>
      ((((g.map PanelRow.date).zip (f (closesOf g))).lookup r.date)).getD none) =
      (g.map PanelRow.date).map (fun d =>
        ((((g.map PanelRow.date).zip (f (closesOf g))).lookup d)).getD none) := by
    rw [List.map_map]; rfl
  rw [hmm, lookup_zip_getD _ _ hnd (by rw [hlen]; simp)]

/-- Counterexample for claim C4: a one-ticker panel whose two rows arrive
in descending date order (`Date 2, Close 10` then `Date 1, Close 20`).
`add_rolling_average` with window 2 evaluates in row order, producing
`[10, 15]`, while the ascending-Date evaluation assigns the `Date 1` row
`20` and the `Date 2` row `15` — the columns differ, so the derived values
are not those of the date-sorted panel. -/
theorem claimC4_counterexample :
    derivedCol (rollingMean 2)
        [⟨2, "A", some 10, some 10, some 10, some 10, some 10, some 10⟩,
         ⟨1, "A", some 20, some 20, some 20, some 20, some 20, some 20⟩] ≠
      specColByDate (rollingMean 2)
        [⟨2, "A", some 10, some 10, some 10, some 10, some 10, some 10⟩,
         ⟨1, "A", some 20, some 20, some 20, some 20, some 20, some 20⟩] := by
  have h1 : derivedCol (rollingMean 2)
      [⟨2, "A", some 10, some 10, some 10, some 10, some 10, some 10⟩,
       ⟨1, "A", some 20, some 20, some 20, some 20, some 20, some 20⟩] =
      [some 10, some 15] := by
    norm_num [derivedCol, groupOf, posInGroup, closesOf, rollingMean, windowAt,
      List.getD, List.range_succ, List.range_zero, List.filterMap_cons]
    exact ⟨fun h => by simp at h, fun h _ => by simp at h⟩
  have h2 : specColByDate (rollingMean 2)
      [⟨2, "A", some 10, some 10, some 10, some 10, some 10, some 10⟩,
       ⟨1, "A", some 20, some 20, some 20, some 20, some 20, some 20⟩] =
      [some 15, some 20] := by
    norm_num [specColByDate, sortByDate, closesOf, rollingMean, windowAt,
      List.insertionSort, List.orderedInsert, List.lookup, List.range_succ,
      List.range_zero, List.filterMap_cons]
    rfl
  rw [h1, h2]
  simp

/-- Claim C4 as amended: the windowed per-ticker computations — daily
return, rolling average and EMA — are evaluated in the order the group's
rows appear, with no sorting; when each ticker's rows are already in
strictly ascending `Date` order, this coincides with the ascending-Date
evaluation of the spec (sort by date, compute, read each row's value back
at its date). -/
theorem claimC4_amended_row_order (g : List PanelRow) (w s : ℕ)
    (hs : (g.map PanelRow.date).Sorted (· < ·)) :
    specColByDate pctChange g = pctChange (closesOf g) ∧
    specColByDate (rollingMean w) g = rollingMean w (closesOf g) ∧
    specColByDate (ewmMean (emaAlpha s)) g = ewmMean (emaAlpha s) (closesOf g) :=
  ⟨specColByDate_of_sorted _ _ hs (by simp [length_pctChange, closesOf]),
   specColByDate_of_sorted _ _ hs (by simp [length_rollingMean, closesOf]),
   specColByDate_of_sorted _ _ hs (by simp [length_ewmMean, closesOf])⟩

/-- Witness for the amended claim C4: a date-sorted two-row group, window 2
and span 3 — the spec's date-ordered evaluation agrees with the code's
row-order evaluation of all three derived columns. -/
theorem claimC4_amended_witness :
    (([⟨1, "A", some 1, some 1, some 1, some 1, some 1, some 1⟩,
        ⟨2, "A", some 2, some 2, some 2, some 2, some 2, some 2⟩] :
        List PanelRow).map PanelRow.date).Sorted (· < ·) ∧
    (specColByDate pctChange
        [⟨1, "A", some 1, some 1, some 1, some 1, some 1, some 1⟩,
         ⟨2, "A", some 2, some 2, some 2, some 2, some 2, some 2⟩] =
      pctChange (closesOf
        [⟨1, "A", some 1, some 1, some 1, some 1, some 1, some 1⟩,
         ⟨2, "A", some 2, some 2, some 2, some 2, some 2, some 2⟩]) ∧
    specColByDate (rollingMean 2)
        [⟨1, "A", some 1, some 1, some 1, some 1, some 1, some 1⟩,
         ⟨2, "A", some 2, some 2, some 2, some 2, some 2, some 2⟩] =
      rollingMean 2 (closesOf
        [⟨1, "A", some 1, some 1, some 1, some 1, some 1, some 1⟩,
         ⟨2, "A", some 2, some 2, some 2, some 2, some 2, some 2⟩]) ∧
    specColByDate (ewmMean (emaAlpha 3))
        [⟨1, "A", some 1, some 1, some 1, some 1, some 1, some 1⟩,
         ⟨2, "A", some 2, some 2, some 2, some 2, some 2, some 2⟩] =
      ewmMean (emaAlpha 3) (closesOf
        [⟨1, "A", some 1, some 1, some 1, some 1, some 1, some 1⟩,
         ⟨2, "A", some 2, some 2, some 2, some 2, some 2, some 2⟩])) :=
  ⟨by decide,
   claimC4_amended_row_order
     [⟨1, "A", some 1, some 1, some 1, some 1, some 1, some 1⟩,
      ⟨2, "A", some 2, some 2, some 2, some 2, some 2, some 2⟩] 2 3 (by decide)⟩

/-- Claim C6, behavior of the code at the failing input: when every
ticker's raw file has zero rows, the assembled panel is empty and
`transform()` runs to completion returning an empty table — no
`EmptyInputError` is raised (no such error exists in the code), so the
empty result is silently written and returned. -/
theorem claimC6_empty_partition_returns_empty :
    loadPanel ["AAPL", "MSFT"] (fun _ => []) = [] ∧
    transform ["AAPL", "MSFT"] (fun _ => []) 30 14 = [] := by
  constructor <;> rfl

theorem keys_clean (p : List PanelRow) : keys (clean p) = keys p := by
  apply List.ext_getElem (by simp [keys, length_clean])
  intro n h1 h2
  have hn : n < p.length := by simpa [keys, length_clean] using h1
  simp only [keys, List.getElem_map]
  have hcd := clean_getD p n hn
  rw [List.getD_eq_getElem _ _ (by simpa [length_clean] using hn)] at hcd
  rw [hcd]
  simp [List.getD_eq_getElem?_getD, List.getElem?_eq_getElem hn]

theorem keysT_transform (tickers : List String) (raw : String → List Bar)
    (w s : ℕ) :
    keysT (transform tickers raw w s) = keys (loadPanel tickers raw) := by
  rw [← keys_clean (loadPanel tickers raw)]
  apply List.ext_getElem
    (by simp [keysT, keys, length_transform, length_clean])
  intro n h1 h2
  have hn : n < (transform tickers raw w s).length := by
    simpa [keysT] using h1
  simp only [keysT, keys, List.getElem_map]
  have htr := transform_getD tickers raw w s n hn
  rw [List.getD_eq_getElem _ _ hn] at htr
  rw [htr]
  have hcn : n < (clean (loadPanel tickers raw)).length := by
    simpa [length_transform, length_clean] using hn
  simp [List.getD_eq_getElem?_getD, List.getElem?_eq_getElem hcn]

theorem keys_loadPanel (tickers : List String) (raw : String → List Bar) :
    keys (loadPanel tickers raw) =
      tickers.flatMap fun t => (raw t).map fun b => (b.date, t) := by
  simp only [keys, loadPanel, List.map_flatMap, List.map_map]
  rfl

/-- Claim C7: for a set of distinct tickers whose raw files each carry
distinct dates (the Raw Daily Bar invariant), the assembled panel has
pairwise-distinct `(Date, Ticker)` keys, and both `clean` and the full
`transform` (daily return, rolling average, EMA, crossover) keep the key
list — hence its uniqueness — unchanged. -/
theorem claimC7_key_uniqueness (tickers : List String) (raw : String → List Bar)
    (w s : ℕ) (h1 : tickers.Nodup) (h2 : ∀ t, ((raw t).map Bar.date).Nodup) :
    (keys (loadPanel tickers raw)).Nodup ∧
    keys (clean (loadPanel tickers raw)) = keys (loadPanel tickers raw) ∧
    keysT (transform tickers raw w s) = keys (loadPanel tickers raw) := by
  refine ⟨?_, keys_clean _, keysT_transform _ _ _ _⟩
  rw [keys_loadPanel]
  rw [List.nodup_flatMap]
  constructor
  · intro t ht
    have hmm : (raw t).map (fun b => (b.date, t)) =
        ((raw t).map Bar.date).map fun d => (d, t) := by
      rw [List.map_map]; rfl
    rw [hmm]
    exact (h2 t).map fun a b hab => by simpa using hab
  · refine h1.imp ?_
    intro a b hne x hxa hxb
    rcases List.mem_map.mp hxa with ⟨ba, _, rfl⟩
    rcases List.mem_map.mp hxb with ⟨bb, _, hEq⟩
    exact hne (by injection hEq with h1 h2; exact h2.symm)

/-- Witness for claim C7: two distinct tickers, each raw file holding two
bars with distinct dates; the hypotheses are discharged concretely. -/
theorem claimC7_witness :
    (keys (loadPanel ["A", "B"]
        (fun _ => [⟨0, some 1, some 1, some 1, some 1, some 1, some 1⟩,
          ⟨1, some 2, some 2, some 2, some 2, some 2, some 2⟩]))).Nodup ∧
    keys (clean (loadPanel ["A", "B"]
        (fun _ => [⟨0, some 1, some 1, some 1, some 1, some 1, some 1⟩,
          ⟨1, some 2, some 2, some 2, some 2, some 2, some 2⟩]))) =
      keys (loadPanel ["A", "B"]
        (fun _ => [⟨0, some 1, some 1, some 1, some 1, some 1, some 1⟩,
          ⟨1, some 2, some 2, some 2, some 2, some 2, some 2⟩])) ∧
    keysT (transform ["A", "B"]
        (fun _ => [⟨0, some 1, some 1, some 1, some 1, some 1, some 1⟩,
          ⟨1, some 2, some 2, some 2, some 2, some 2, some 2⟩]) 2 2) =
      keys (loadPanel ["A", "B"]
        (fun _ => [⟨0, some 1, some 1, some 1, some 1, some 1, some 1⟩,
          ⟨1, some 2, some 2, some 2, some 2, some 2, some 2⟩])) :=
  claimC7_key_uniqueness ["A", "B"]
    (fun _ => [⟨0, some 1, some 1, some 1, some 1, some 1, some 1⟩,
      ⟨1, some 2, some 2, some 2, some 2, some 2, some 2⟩]) 2 2
    (by decide) (fun t => by simp)

theorem date_ne_rollCol (x : String) : "Date" ≠ "RollAvg" ++ x ++ "Days" := by
  intro h
  have hl := congrArg String.length h
  rw [String.length_append, String.length_append] at hl
  have e1 : "Date".length = 4 := rfl
  have e2 : "RollAvg".length = 7 := rfl
  have e3 : "Days".length = 4 := rfl
  rw [e1, e2, e3] at hl
  omega

theorem ticker_ne_rollCol (x : String) : "Ticker" ≠ "RollAvg" ++ x ++ "Days" := by
  intro h
  have hl := congrArg String.length h
  rw [String.length_append, String.length_append] at hl
  have e1 : "Ticker".length = 6 := rfl
  have e2 : "RollAvg".length = 7 := rfl
  have e3 : "Days".length = 4 := rfl
  rw [e1, e2, e3] at hl
  omega

theorem date_ne_emaCol (x : String) : "Date" ≠ "EMA" ++ x := by
  intro h
  have hd := congrArg String.data h
  rw [String.data_append] at hd
  have e1 : "Date".data = ['D', 'a', 't', 'e'] := rfl
  have e2 : "EMA".data = ['E', 'M', 'A'] := rfl
  rw [e1, e2] at hd
  injection hd with hc _
  exact absurd hc (by decide)

theorem ticker_ne_emaCol (x : String) : "Ticker" ≠ "EMA" ++ x := by
  intro h
  have hd := congrArg String.data h
  rw [String.data_append] at hd
  have e1 : "Ticker".data = ['T', 'i', 'c', 'k', 'e', 'r'] := rfl
  have e2 : "EMA".data = ['E', 'M', 'A'] := rfl
  rw [e1, e2] at hd
  injection hd with hc _
  exact absurd hc (by decide)

/-- Claim C9, behavior of the code at the failing input: the consolidated
CSV header written by `_save_to_csv` does contain the derived columns
`DailyReturn`, `RollAvg{w}Days`, `EMA{s}` and `Crossover`, but — because
`to_csv` is called with `index=False` while `Date` and `Ticker` live in
the MultiIndex — it contains no `Date` and no `Ticker` column, for any
window and span, so the Loader cannot read the keys back. -/
theorem claimC9_saved_file_lacks_keys (w s : ℕ) :
    ("DailyReturn" ∈ savedColumns w s ∧ rollAvgColName w ∈ savedColumns w s ∧
      emaColName s ∈ savedColumns w s ∧ "Crossover" ∈ savedColumns w s) ∧
    "Date" ∉ savedColumns w s ∧ "Ticker" ∉ savedColumns w s := by
  refine ⟨⟨by simp [savedColumns], by simp [savedColumns], by simp [savedColumns],
    by simp [savedColumns]⟩, ?_, ?_⟩
  · intro hmem
    simp only [savedColumns, List.mem_cons, List.not_mem_nil, or_false] at hmem
    rcases hmem with h | h | h | h | h | h | h | h | h | h
    · exact absurd h (by decide)
    · exact absurd h (by decide)
    · exact absurd h (by decide)
    · exact absurd h (by decide)
    · exact absurd h (by decide)
    · exact absurd h (by decide)
    · exact absurd h (by decide)
    · exact date_ne_rollCol (toString w) (by simpa [rollAvgColName] using h)
    · exact date_ne_emaCol (toString s) (by simpa [emaColName] using h)
    · exact absurd h (by decide)
  · intro hmem
    simp only [savedColumns, List.mem_cons, List.not_mem_nil, or_false] at hmem
    rcases hmem with h | h | h | h | h | h | h | h | h | h
    · exact absurd h (by decide)
    · exact absurd h (by decide)
    · exact absurd h (by decide)
    · exact absurd h (by decide)
    · exact absurd h (by decide)
    · exact absurd h (by decide)
    · exact absurd h (by decide)
    · exact ticker_ne_rollCol (toString w) (by simpa [rollAvgColName] using h)
    · exact ticker_ne_emaCol (toString s) (by simpa [emaColName] using h)
    · exact absurd h (by decide)

end StockETL
